import Mathlib

/-!
Verification of the cvrminer field-extraction core against its source.

The development shallowly embeds the Python modules `cvrminer/virksomhed.py`,
`cvrminer/cvrfile.py` and `cvrminer/text.py`.  JSON-decoded Python values are
modelled by the inductive `Json`; Python exceptions by `PyErr`; fallible
operations return `Except PyErr _`.  Accessors that the source wraps in
`try/except` are total Lean functions implementing the documented fallback;
accessors with bare subscripting propagate errors.
-/

/-- Values produced by decoding a JSON document in Python.  `float` marks a
non-integral numeric (or otherwise uncatalogued scalar such as a Mongo
ObjectId) leaf; its payload is abstract since no property depends on it. -/
inductive Json where
  | null
  | bool (b : Bool)
  | int (n : Int)
  | float (payload : Int)
  | str (s : String)
  | arr (xs : List Json)
  | obj (kvs : List (String × Json))

/-- Python exceptions that the embedded code can raise. -/
inductive PyErr where
  | keyError (k : String)
  | typeError
  | indexError
  | valueError (msg : String)
  | assertionError

/-- Python runtime values returned by the accessor catalogue: a JSON value,
a string made by `str(...)`, an `int`, or the `numpy.nan` sentinel. -/
inductive PyObj where
  | ofJson (j : Json)
  | pstr (s : String)
  | pint (n : Int)
  | nan

/-- First-match association-list lookup, the semantics of indexing a Python
dict built by `json.loads` (keys are unique and in insertion order). -/
def lookupKey (k : String) : List (String × Json) → Option Json
  | [] => none
  | (k', v) :: kvs => if k' = k then some v else lookupKey k kvs

/-- Semantics of the Python subscript `value[k]` with a string key: a dict
yields the entry or `KeyError`; any other value raises `TypeError`. -/
def pyGet (j : Json) (k : String) : Except PyErr Json :=
  match j with
  | .obj kvs =>
    match lookupKey k kvs with
    | some v => .ok v
    | none => .error (.keyError k)
  | _ => .error .typeError

/-- Semantics of Python `str(...)` on JSON-decoded scalars.  The reprs of
containers and of abstract `float` leaves are placeholders: no accessor in
the verified claims ever applies `str` to them. -/
def pyStr : Json → String
  | .null => "None"
  | .bool true => "True"
  | .bool false => "False"
  | .int n => toString n
  | .float _ => "<float>"
  | .str s => s
  | .arr _ => "<list>"
  | .obj _ => "<dict>"

/-- Characters counted as whitespace by Python's `str.strip` and by
`int(...)`'s surrounding-whitespace tolerance. -/
def isPySpace (c : Char) : Bool :=
  c == ' ' || c == '\t' || c == '\n' || c == '\r' || c == '\x0b' || c == '\x0c'

/-- Numeric value of a nonempty all-digit character list, `none` otherwise:
the digit-string acceptance of Python's `int(...)`. -/
def parseDigits : List Char → Option Nat
  | [] => none
  | cs =>
    if cs.all Char.isDigit then
      some (cs.foldl (fun a c => 10 * a + (c.toNat - 48)) 0)
    else none

/-- Semantics of Python `int(s)` for a string argument: strip surrounding
whitespace, allow one sign, then require a nonempty run of digits. -/
def pyIntOfString (s : String) : Option Int :=
  let cs := ((s.data.dropWhile isPySpace).reverse.dropWhile isPySpace).reverse
  match cs with
  | '-' :: ds => (parseDigits ds).map (fun n => -(n : Int))
  | '+' :: ds => (parseDigits ds).map (fun n => (n : Int))
  | ds => (parseDigits ds).map (fun n => (n : Int))

/-- First four characters of a string, the slice `s[:4]`. -/
def strTake4 (s : String) : String := String.mk (s.data.take 4)

/-! ## Generic maximal-run tokenizer

Used both for the regex `\b(?:...)\b` word semantics of the purpose
stop-word pattern and for `re.findall(r'\d+', ...)` digit runs. -/

/-- A token of a character stream: a maximal run of characters satisfying a
predicate, or a single character that does not. -/
inductive Tok where
  | word (w : List Char)
  | other (c : Char)

/-- Split a character list into maximal runs of `p`-characters (as `word`
tokens) and the remaining single characters (as `other` tokens). -/
def toksBy (p : Char → Bool) : List Char → List Tok
  | [] => []
  | c :: cs =>
    if p c then
      match toksBy p cs with
      | Tok.word w :: ts => Tok.word (c :: w) :: ts
      | ts => Tok.word [c] :: ts
    else Tok.other c :: toksBy p cs

/-- Concatenate a token list back into a character list. -/
def untoks : List Tok → List Char
  | [] => []
  | .word w :: ts => w ++ untoks ts
  | .other c :: ts => c :: untoks ts

/-- Extract the run of a `word` token. -/
def wordOf : Tok → Option (List Char)
  | .word w => some w
  | .other _ => none

/-- Maximal digit runs of a string, the matches of `re.findall(r'\d+', s)`. -/
def digitRunsOf (s : String) : List (List Char) :=
  (toksBy Char.isDigit s.data).filterMap wordOf

/-- Numeric value of a digit run (always parses, as `int` does on a
`\d+` match). -/
def natOfDigits (ds : List Char) : Nat :=
  ds.foldl (fun a c => 10 * a + (c.toNat - 48)) 0

/-! ## Virksomhed accessors (`cvrminer/virksomhed.py`)

Each accessor takes the raw record dict `data` held by the `Virksomhed`
object.  Accessors whose Python body is a bare subscript chain return
`Except` and propagate the exception; accessors wrapped in `try/except`
are total and return the documented fallback. -/

/-- Accessor `cvr_nummer`: `data['cvrNummer']`, unguarded. -/
def cvr_nummer (data : Json) : Except PyErr Json :=
  pyGet data "cvrNummer"

/-- Accessor `antal_penheder`:
`data['virksomhedMetadata']['antalPenheder']`, unguarded. -/
def antal_penheder (data : Json) : Except PyErr Json := do
  pyGet (← pyGet data "virksomhedMetadata") "antalPenheder"

/-- Accessor `branche_ansvarskode`: `str(data['brancheAnsvarskode'])`; the
subscript is unguarded. -/
def branche_ansvarskode (data : Json) : Except PyErr String := do
  pure (pyStr (← pyGet data "brancheAnsvarskode"))

/-- Accessor `nyeste_antal_ansatte`: first `\d+` match of
`data['virksomhedMetadata']['nyesteAarsbeskaeftigelse']['intervalKodeAntalAnsatte']`
as an int; any exception inside the `try` yields `nan`. -/
def nyeste_antal_ansatte (data : Json) : PyObj :=
  match (do pyGet (← pyGet (← pyGet data "virksomhedMetadata")
      "nyesteAarsbeskaeftigelse") "intervalKodeAntalAnsatte" :
      Except PyErr Json) with
  | .ok (.str s) =>
    match digitRunsOf s with
    | r :: _ => .pint (natOfDigits r)
    | [] => .nan
  | _ => .nan

/-- Accessor `nyeste_virksomhedsform`: guarded lookup of
`['virksomhedMetadata']['nyesteVirksomhedsform']['langBeskrivelse']`,
`nan` on any exception. -/
def nyeste_virksomhedsform (data : Json) : PyObj :=
  match (do pyGet (← pyGet (← pyGet data "virksomhedMetadata")
      "nyesteVirksomhedsform") "langBeskrivelse" : Except PyErr Json) with
  | .ok v => .ofJson v
  | .error _ => .nan

/-- Accessor `nyeste_statuskode`: guarded
`str(['virksomhedMetadata']['nyesteStatus']['statuskode'])`, the literal
string `"None"` on any exception. -/
def nyeste_statuskode (data : Json) : String :=
  match (do pyGet (← pyGet (← pyGet data "virksomhedMetadata")
      "nyesteStatus") "statuskode" : Except PyErr Json) with
  | .ok v => pyStr v
  | .error _ => "None"

/-- Accessor `reklamebeskyttet`: `data['reklamebeskyttet']`, unguarded. -/
def reklamebeskyttet (data : Json) : Except PyErr Json :=
  pyGet data "reklamebeskyttet"

/-- Accessor `sammensat_status`:
`data['virksomhedMetadata']['sammensatStatus']`, unguarded. -/
def sammensat_status (data : Json) : Except PyErr Json := do
  pyGet (← pyGet data "virksomhedMetadata") "sammensatStatus"

/-- Accessor `nyeste_hovedbranche_branchekode`: guarded lookup, Python
`None` on any exception. -/
def nyeste_hovedbranche_branchekode (data : Json) : Json :=
  match (do pyGet (← pyGet (← pyGet data "virksomhedMetadata")
      "nyesteHovedbranche") "branchekode" : Except PyErr Json) with
  | .ok v => v
  | .error _ => .null

/-- Accessor `nyeste_hovedbranche_branchetekst`: guarded lookup, Python
`None` on any exception. -/
def nyeste_hovedbranche_branchetekst (data : Json) : Json :=
  match (do pyGet (← pyGet (← pyGet data "virksomhedMetadata")
      "nyesteHovedbranche") "branchetekst" : Except PyErr Json) with
  | .ok v => v
  | .error _ => .null

/-- Accessor `stiftelsesdato`:
`data['virksomhedMetadata']['stiftelsesDato']`, unguarded. -/
def stiftelsesdato (data : Json) : Except PyErr Json := do
  pyGet (← pyGet data "virksomhedMetadata") "stiftelsesDato"

/-- Year conversion of `stiftelsesaar`: the body of its `try` block,
`int(date[:4])`, with any exception giving `nan`.  Slicing a non-string and
`int` of a non-numeric string both fall to `nan`. -/
def tryYear : Json → PyObj
  | .str s =>
    match pyIntOfString (strTake4 s) with
    | some n => .pint n
    | none => .nan
  | _ => .nan

/-- Accessor `stiftelsesaar`: reads `stiftelsesdato` outside any `try`
(so a missing date field propagates its exception), then guardedly
converts the first four characters to an int. -/
def stiftelsesaar (data : Json) : Except PyErr PyObj := do
  let date ← stiftelsesdato data
  pure (tryYear date)

/-- Fixed feature-name catalogue of `Virksomhed.features`, in source
order. -/
def featureNames : List String :=
  ["cvr_nummer", "antal_penheder", "branche_ansvarskode",
   "nyeste_antal_ansatte", "nyeste_virksomhedsform", "reklamebeskyttet",
   "sammensat_status", "nyeste_hovedbranche_branchekode",
   "nyeste_hovedbranche_branchetekst", "nyeste_statuskode",
   "stiftelsesaar"]

/-- Bulk operation `Virksomhed.features`: evaluates the accessor catalogue
in source order (the order the `OrderedDict([...])` literal evaluates its
entries, which fixes which exception surfaces first) and returns the
ordered mapping. -/
def features (data : Json) : Except PyErr (List (String × PyObj)) := do
  let c ← cvr_nummer data
  let ap ← antal_penheder data
  let ba ← branche_ansvarskode data
  let na := nyeste_antal_ansatte data
  let nv := nyeste_virksomhedsform data
  let rb ← reklamebeskyttet data
  let ss ← sammensat_status data
  let bk := nyeste_hovedbranche_branchekode data
  let bt := nyeste_hovedbranche_branchetekst data
  let sk := nyeste_statuskode data
  let sa ← stiftelsesaar data
  pure [("cvr_nummer", .ofJson c),
        ("antal_penheder", .ofJson ap),
        ("branche_ansvarskode", .pstr ba),
        ("nyeste_antal_ansatte", na),
        ("nyeste_virksomhedsform", nv),
        ("reklamebeskyttet", .ofJson rb),
        ("sammensat_status", .ofJson ss),
        ("nyeste_hovedbranche_branchekode", .ofJson bk),
        ("nyeste_hovedbranche_branchetekst", .ofJson bt),
        ("nyeste_statuskode", .pstr sk),
        ("stiftelsesaar", sa)]

/-! ## Field census (`Virksomhed.count_fields`)

The inner generator `_process_field(field, value)` walks the record and
yields one dotted path per counted leaf.  Branch order matters and follows
the source exactly: list, dict, integral (Python `bool` is a subclass of
`int`, so `True`/`False` count), text, `None`, the literal path `'._id'`,
and finally `assert False` for any other leaf type. -/

mutual

/-- The generator `_process_field`, returning the emitted paths in yield
order, or `AssertionError` for an unhandled leaf type. -/
def processField (field : String) : Json → Except PyErr (List String)
  | .arr xs => processFieldArr field xs
  | .obj kvs => processFieldObj field kvs
  | .int _ => .ok [field]
  | .bool _ => .ok [field]
  | .str _ => .ok [field]
  | .null => .ok []
  | .float _ => if field = "._id" then .ok [] else .error .assertionError

/-- List case of `_process_field`: each element is visited under the same
path as its parent key, outputs concatenated in order. -/
def processFieldArr (field : String) : List Json → Except PyErr (List String)
  | [] => .ok []
  | j :: js => do
    pure ((← processField field j) ++ (← processFieldArr field js))

/-- Dict case of `_process_field`: recurse with the path extended by each
key, in insertion order. -/
def processFieldObj (field : String) :
    List (String × Json) → Except PyErr (List String)
  | [] => .ok []
  | (k, v) :: kvs => do
    pure ((← processField (field ++ "." ++ k) v) ++ (← processFieldObj field kvs))

end

/-- `Virksomhed.count_fields`: run the generator from the empty root path
and strip the leading `'.'` of every emitted path.  The resulting list,
read as a multiset, is the returned `Counter`. -/
def countFields (data : Json) : Except PyErr (List String) :=
  (processField "" data).map (List.map (fun f => f.drop 1))

/-- Number of occurrences of one dotted path in a census result: the count
the `Counter` stores for that key. -/
def pathCount (paths : List String) (f : String) : Nat :=
  paths.count f

/-- Aggregated census (spec §4.4): total of all per-path counts after
folding in each record of a stream.  A record whose census crashes
contributes no counts. -/
def censusTotal (records : List Json) : Nat :=
  (records.map (fun r =>
    match countFields r with
    | .ok l => l.length
    | .error _ => 0)).sum

/-! ## Purposes accessor (`Virksomhed.formaal`) -/

/-- Python `==` between a value and a string literal: true only for an
equal string, false (never an error) otherwise. -/
def jsonEqStr (j : Json) (s : String) : Bool :=
  match j with
  | .str t => t = s
  | _ => false

/-- Semantics of `for x in value`: a list yields its elements, a dict its
keys, a string its characters; other values raise `TypeError`. -/
def pyIterate : Json → Except PyErr (List Json)
  | .arr xs => .ok xs
  | .obj kvs => .ok (kvs.map (fun kv => Json.str kv.1))
  | .str s => .ok (s.data.map (fun c => Json.str (String.mk [c])))
  | _ => .error .typeError

/-- Loop body of `formaal`: scan the attributes; at the first one whose
`'type'` equals `'FORMÅL'` collect `value['vaerdi']` for every entry of its
`'vaerdier'` and stop (the `break`); otherwise keep scanning. -/
def formaalLoop : List Json → Except PyErr (List Json)
  | [] => .ok []
  | a :: rest => do
    let t ← pyGet a "type"
    if jsonEqStr t "FORMÅL" then do
      let vs ← pyGet a "vaerdier"
      let items ← pyIterate vs
      items.mapM (fun v => pyGet v "vaerdi")
    else formaalLoop rest

/-- Accessor `formaal`: iterate over `data['attributter']` with the scan
above; an exhausted loop returns the empty list. -/
def formaal (data : Json) : Except PyErr (List Json) := do
  let attrs ← pyGet data "attributter"
  let items ← pyIterate attrs
  formaalLoop items

/-! ## Record reader (`cvrminer/cvrfile.py`)

The reader is modelled over the sequence of lines the open handle will
deliver; `readline` returns `""` once the stream is exhausted, exactly as
Python's file object does.  JSON decoding is a parameter `dec` standing
for `json.loads`, with `dec line = none` meaning `json.loads` raises
`ValueError`; Python's `json.loads` rejects the empty string. -/

/-- State of an open `CvrFile`: remaining lines and the `line_number`
counter (0 before the first `next`). -/
structure CvrState where
  lines : List String
  lineNumber : Nat

/-- Python `readline`: the next line, or `""` at end of file. -/
def readline : CvrState → String × CvrState
  | ⟨[], n⟩ => ("", ⟨[], n⟩)
  | ⟨l :: ls, n⟩ => (l, ⟨ls, n⟩)

/-- `CvrFile.__next__`: read a line, increment `line_number`, decode the
line; on decode failure re-raise `ValueError` with the 1-based line number
and the raw line text.  There is no end-of-stream case: the method never
raises `StopIteration`. -/
def cvrNext (dec : String → Option Json) (st : CvrState) :
    Except PyErr (Json × CvrState) :=
  let (line, st') := readline st
  let st'' : CvrState := ⟨st'.lines, st'.lineNumber + 1⟩
  match dec line with
  | some j => .ok (j, st'')
  | none => .error (.valueError
      ("No JSON object could be decoded in line " ++
        toString st''.lineNumber ++ ": " ++ line))

/-- Driver loop over the iterator: call `cvrNext` up to `fuel` times,
collecting yielded records until the first raised error. -/
def readRecords (dec : String → Option Json) :
    Nat → CvrState → List Json × Option PyErr
  | 0, _ => ([], none)
  | fuel + 1, st =>
    match cvrNext dec st with
    | .ok (j, st') =>
      let (js, e) := readRecords dec fuel st'
      (j :: js, e)
    | .error e => ([], some e)

/-- A concrete stand-in decoder used by witnesses: accepts exactly the
two-character line `"{}"`. -/
def toyDec : String → Option Json :=
  fun s => if s = "{}" then some (.obj []) else none

/-! ## Purpose text cleaner (`cvrminer/text.py`, `PurposeProcessor`)

`clean` applies only `stop_words_pattern.sub('', text).strip()`; the
boilerplate `ignore_pattern` compiled in `__init__` is never used by
`clean`.  The pattern is `\b(?:w1|w2|...)\b` over the stop words sorted
longest-first.  Since every stop word is a nonempty run of word
characters, a substitution match is exactly a maximal word-character run
equal to a stop word, which the token model below implements. -/

/-- Word characters of the pattern's `\b` boundary (`\w`): ASCII
alphanumerics, underscore, and the Danish letters occurring in the stop
words (the repertoire exercised by this development; Python's full Unicode
`\w` class is wider). -/
def isWordChar (c : Char) : Bool :=
  c.isAlphanum || c == '_' || c == 'å' || c == 'æ' || c == 'ø' ||
    c == 'Å' || c == 'Æ' || c == 'Ø' || c == 'é'

/-- Modelled from the spec: the contents of `data/purpose_stop_words.txt`,
a repository data file that is not under `src/`.  The words cover the
boilerplate fragments the spec and the `clean` docstring list
("Selskabets formål er at drive", "og anden dermed beslægtet virksomhed",
"hermed beslægtet virksomhed") and the documented doctest membership
`'dermed' in stop_words`. -/
def purposeStopWords : List String :=
  ["Selskabets", "formål", "er", "at", "drive", "og", "anden", "dermed",
   "beslægtet", "virksomhed", "hermed"]

/-- Stable insertion of a word into a list sorted by non-increasing
length. -/
def insertByLen (w : String) : List String → List String
  | [] => [w]
  | x :: xs => if x.length ≤ w.length then w :: x :: xs else x :: insertByLen w xs

/-- The source's `sorted(stop_words, key=len, reverse=True)`: the stop
words sorted longest-first before the alternation pattern is built. -/
def stopWordsSorted : List String :=
  purposeStopWords.foldr insertByLen []

/-- Membership of a word run in the compiled alternation: the run matches
`\b(?:...)\b` exactly when it equals one of the sorted stop words. -/
def isStop (w : List Char) : Bool :=
  stopWordsSorted.any (fun sw => sw.data = w)

/-- Token filter of the substitution: stop-word runs are deleted, all
other tokens survive. -/
def keepTok : Tok → Bool
  | .word w => !isStop w
  | .other _ => true

/-- `stop_words_pattern.sub('', text)` on a character list: drop every
maximal word run that equals a stop word, keep everything else. -/
def removeStop (cs : List Char) : List Char :=
  untoks ((toksBy isWordChar cs).filter keepTok)

/-- Python `str.strip`'s leading side: drop leading whitespace. -/
def lstrip (cs : List Char) : List Char :=
  cs.dropWhile isPySpace

/-- Python `str.strip`'s trailing side: drop trailing whitespace. -/
def rstrip (cs : List Char) : List Char :=
  (cs.reverse.dropWhile isPySpace).reverse

/-- Python `str.strip`: drop whitespace at both ends. -/
def stripChars (cs : List Char) : List Char :=
  rstrip (lstrip cs)

/-- `PurposeProcessor.clean`: `stop_words_pattern.sub('', text).strip()`. -/
def clean (text : String) : String :=
  String.mk (stripChars (removeStop text.data))

/-- Maximal word-character runs of a character list, in order: the words
of a text in the `\b` sense. -/
def wordRuns (cs : List Char) : List (List Char) :=
  (toksBy isWordChar cs).filterMap wordOf

/-! ## Structural facts about the tokenizer -/

/-- Whether a token is a word run. -/
def isWordTok : Tok → Bool
  | .word _ => true
  | .other _ => false

/-- Well-formedness of one token with respect to the run predicate. -/
def tokOk (p : Char → Bool) : Tok → Prop
  | .word w => w ≠ [] ∧ ∀ c ∈ w, p c = true
  | .other c => p c = false

/-- Two adjacent tokens may not both be word runs (runs are maximal). -/
def sepOk (a b : Tok) : Prop :=
  isWordTok a = false ∨ isWordTok b = false

/-- Canonical-form invariant of a token list: every token is well formed
and no two word runs are adjacent. -/
def goodToks (p : Char → Bool) (ts : List Tok) : Prop :=
  (∀ t ∈ ts, tokOk p t) ∧ List.Chain' sepOk ts

theorem toksBy_cons (p : Char → Bool) (c : Char) (cs : List Char) :
    toksBy p (c :: cs) =
      if p c then
        match toksBy p cs with
        | Tok.word w :: ts => Tok.word (c :: w) :: ts
        | ts => Tok.word [c] :: ts
      else Tok.other c :: toksBy p cs := rfl

theorem toksBy_cons_neg {p : Char → Bool} {c : Char} (cs : List Char)
    (hp : p c = false) :
    toksBy p (c :: cs) = Tok.other c :: toksBy p cs := by
  rw [toksBy_cons]; simp [hp]

theorem toksBy_cons_pos {p : Char → Bool} {c : Char} (cs : List Char)
    (hp : p c = true) :
    toksBy p (c :: cs) =
      match toksBy p cs with
      | Tok.word w :: ts => Tok.word (c :: w) :: ts
      | ts => Tok.word [c] :: ts := by
  rw [toksBy_cons]; simp [hp]

theorem toksBy_good (p : Char → Bool) (cs : List Char) :
    goodToks p (toksBy p cs) := by
  induction cs with
  | nil => exact ⟨by simp [toksBy], List.chain'_nil⟩
  | cons c cs ih =>
    obtain ⟨ihmem, ihchain⟩ := ih
    cases hp : p c with
    | false =>
      rw [toksBy_cons_neg cs hp]
      refine ⟨?_, ?_⟩
      · intro t ht
        rcases List.mem_cons.mp ht with h | h
        · subst h; exact hp
        · exact ihmem t h
      · rw [List.chain'_cons']
        exact ⟨fun y _ => Or.inl rfl, ihchain⟩
    | true =>
      rw [toksBy_cons_pos cs hp]
      cases hT : toksBy p cs with
      | nil =>
        refine ⟨?_, ?_⟩
        · intro t ht
          simp only [List.mem_singleton] at ht
          subst ht
          exact ⟨by simp, by intro d hd; simp at hd; subst hd; exact hp⟩
        · simp
      | cons t ts =>
        cases t with
        | word w =>
          rw [hT] at ihmem ihchain
          have hw : tokOk p (Tok.word w) := ihmem _ (List.mem_cons_self _ _)
          refine ⟨?_, ?_⟩
          · intro t' ht'
            rcases List.mem_cons.mp ht' with h | h
            · subst h
              refine ⟨by simp, ?_⟩
              intro d hd
              rcases List.mem_cons.mp hd with h | h
              · subst h; exact hp
              · exact hw.2 d h
            · exact ihmem t' (List.mem_cons_of_mem _ h)
          · rw [List.chain'_cons'] at ihchain ⊢
            exact ⟨ihchain.1, ihchain.2⟩
        | other d =>
          rw [hT] at ihmem ihchain
          refine ⟨?_, ?_⟩
          · intro t' ht'
            rcases List.mem_cons.mp ht' with h | h
            · subst h
              exact ⟨by simp, by intro e he; simp at he; subst he; exact hp⟩
            · exact ihmem t' h
          · rw [List.chain'_cons']
            exact ⟨by intro y hy; simp at hy; subst hy; exact Or.inr rfl, ihchain⟩

theorem toksBy_all_neg {p : Char → Bool} {ss : List Char}
    (h : ∀ c ∈ ss, p c = false) :
    toksBy p ss = ss.map Tok.other := by
  induction ss with
  | nil => rfl
  | cons c ss ih =>
    rw [toksBy_cons_neg ss (h c (List.mem_cons_self _ _))]
    simp only [List.map_cons, List.cons.injEq, true_and]
    exact ih (fun d hd => h d (List.mem_cons_of_mem _ hd))

theorem toksBy_append_nonword {p : Char → Bool} {ss : List Char}
    (hss : ∀ c ∈ ss, p c = false) (xs : List Char) :
    toksBy p (xs ++ ss) = toksBy p xs ++ ss.map Tok.other := by
  induction xs with
  | nil => simpa using toksBy_all_neg hss
  | cons c xs ih =>
    cases hp : p c with
    | false =>
      rw [List.cons_append, toksBy_cons_neg _ hp, toksBy_cons_neg _ hp, ih,
        List.cons_append]
    | true =>
      rw [List.cons_append, toksBy_cons_pos _ hp, toksBy_cons_pos _ hp, ih]
      cases hx : toksBy p xs with
      | nil =>
        cases ss with
        | nil => simp
        | cons s ss' => simp
      | cons t ts =>
        cases t with
        | word w => simp
        | other d => simp

theorem toksBy_prepend_run {p : Char → Bool} {w : List Char}
    (hne : w ≠ []) (hw : ∀ c ∈ w, p c = true) (r : List Char)
    (hr : ∀ t ∈ (toksBy p r).head?, isWordTok t = false) :
    toksBy p (w ++ r) = Tok.word w :: toksBy p r := by
  induction w with
  | nil => exact absurd rfl hne
  | cons c w' ih =>
    cases w' with
    | nil =>
      rw [List.cons_append, List.nil_append,
        toksBy_cons_pos _ (hw c (List.mem_cons_self _ _))]
      cases hR : toksBy p r with
      | nil => simp
      | cons t ts =>
        cases t with
        | word v =>
          have := hr (Tok.word v) (by rw [hR]; rfl)
          simp [isWordTok] at this
        | other d => simp
    | cons d w'' =>
      have hih : toksBy p ((d :: w'') ++ r) = Tok.word (d :: w'') :: toksBy p r :=
        ih (by simp) (fun e he => hw e (List.mem_cons_of_mem _ he))
      rw [List.cons_append, toksBy_cons_pos _ (hw c (List.mem_cons_self _ _)), hih]

theorem toksBy_untoks {p : Char → Bool} {ts : List Tok}
    (h : goodToks p ts) : toksBy p (untoks ts) = ts := by
  induction ts with
  | nil => rfl
  | cons t ts ih =>
    obtain ⟨hmem, hchain⟩ := h
    rw [List.chain'_cons'] at hchain
    have htail : goodToks p ts :=
      ⟨fun u hu => hmem u (List.mem_cons_of_mem _ hu), hchain.2⟩
    cases t with
    | other c =>
      have hc : p c = false := hmem _ (List.mem_cons_self _ _)
      show toksBy p (c :: untoks ts) = Tok.other c :: ts
      rw [toksBy_cons_neg _ hc, ih htail]
    | word w =>
      have hw : tokOk p (Tok.word w) := hmem _ (List.mem_cons_self _ _)
      show toksBy p (w ++ untoks ts) = Tok.word w :: ts
      have hhead : ∀ u ∈ (toksBy p (untoks ts)).head?, isWordTok u = false := by
        rw [ih htail]
        intro u hu
        have := hchain.1 u hu
        rcases this with h1 | h1
        · simp [isWordTok] at h1
        · exact h1
      rw [toksBy_prepend_run hw.1 hw.2 _ hhead, ih htail]

theorem filter_good {p : Char → Bool} (keep : Tok → Bool) {ts : List Tok}
    (h : goodToks p ts) (hother : ∀ c, keep (Tok.other c) = true) :
    goodToks p (ts.filter keep) := by
  induction ts with
  | nil => exact ⟨by simp, List.chain'_nil⟩
  | cons t ts ih =>
    obtain ⟨hmem, hchain⟩ := h
    rw [List.chain'_cons'] at hchain
    have htail : goodToks p ts :=
      ⟨fun u hu => hmem u (List.mem_cons_of_mem _ hu), hchain.2⟩
    obtain ⟨ihmem, ihchain⟩ := ih htail
    cases hk : keep t with
    | false =>
      rw [List.filter_cons, if_neg (by simp [hk])]
      exact ⟨ihmem, ihchain⟩
    | true =>
      rw [List.filter_cons, if_pos (by rw [hk])]
      refine ⟨?_, ?_⟩
      · intro u hu
        rcases List.mem_cons.mp hu with h1 | h1
        · subst h1; exact hmem _ (List.mem_cons_self _ _)
        · exact ihmem u h1
      · rw [List.chain'_cons']
        refine ⟨?_, ihchain⟩
        intro y hy
        cases t with
        | other c => exact Or.inl rfl
        | word w =>
          cases ts with
          | nil => simp at hy
          | cons u ts' =>
            cases u with
            | word v =>
              have := hchain.1 (Tok.word v) rfl
              rcases this with h1 | h1 <;> simp [isWordTok] at h1
            | other d =>
              rw [List.filter_cons, if_pos (by rw [hother d])] at hy
              simp only [List.head?_cons, Option.mem_def, Option.some.injEq] at hy
              subst hy
              exact Or.inr rfl

theorem untoks_append (a b : List Tok) :
    untoks (a ++ b) = untoks a ++ untoks b := by
  induction a with
  | nil => rfl
  | cons t ts ih =>
    cases t with
    | word w => simp [untoks, ih]
    | other c => simp [untoks, ih]

theorem untoks_map_other (ss : List Char) :
    untoks (ss.map Tok.other) = ss := by
  induction ss with
  | nil => rfl
  | cons c ss ih => simp [untoks, ih]

theorem filter_keepTok_map_other (ss : List Char) :
    (ss.map Tok.other).filter keepTok = ss.map Tok.other := by
  induction ss with
  | nil => rfl
  | cons c ss ih => simp [List.filter_cons, keepTok, ih]

theorem filterMap_wordOf_filter_keepTok (ts : List Tok) :
    (ts.filter keepTok).filterMap wordOf =
      (ts.filterMap wordOf).filter (fun w => !isStop w) := by
  induction ts with
  | nil => rfl
  | cons t ts ih =>
    cases t with
    | word w =>
      cases hs : isStop w with
      | false => simp [List.filter_cons, List.filterMap_cons, keepTok, wordOf, hs, ih]
      | true => simp [List.filter_cons, List.filterMap_cons, keepTok, wordOf, hs, ih]
    | other c =>
      simp [List.filter_cons, List.filterMap_cons, keepTok, wordOf, ih]

theorem filterMap_wordOf_map_other (ss : List Char) :
    (ss.map Tok.other).filterMap wordOf = [] := by
  induction ss with
  | nil => rfl
  | cons c ss ih => simp [List.filterMap_cons, wordOf, ih]

/-! ## Facts about `removeStop`, `stripChars` and `wordRuns` -/

theorem removeStop_cons_nonword {c : Char} (cs : List Char)
    (h : isWordChar c = false) :
    removeStop (c :: cs) = c :: removeStop cs := by
  unfold removeStop
  rw [toksBy_cons_neg _ h, List.filter_cons, if_pos (by simp [keepTok])]
  rfl

theorem removeStop_idem (cs : List Char) :
    removeStop (removeStop cs) = removeStop cs := by
  have g := toksBy_good isWordChar cs
  have g2 := filter_good keepTok g (fun c => rfl)
  show untoks (List.filter keepTok
    (toksBy isWordChar (untoks (List.filter keepTok (toksBy isWordChar cs))))) = _
  rw [toksBy_untoks g2, List.filter_filter]
  simp only [Bool.and_self]
  rfl

theorem removeStop_append_nonword {ss : List Char}
    (hss : ∀ c ∈ ss, isWordChar c = false) (xs : List Char) :
    removeStop (xs ++ ss) = removeStop xs ++ ss := by
  unfold removeStop
  rw [toksBy_append_nonword hss, List.filter_append, filter_keepTok_map_other,
    untoks_append, untoks_map_other]

theorem space_not_word {c : Char} (h : isPySpace c = true) :
    isWordChar c = false := by
  simp only [isPySpace, Bool.or_eq_true, beq_iff_eq] at h
  rcases h with ((((h | h) | h) | h) | h) | h <;> subst h <;> decide

theorem removeStop_lstrip {z : List Char} (h : removeStop z = z) :
    removeStop (lstrip z) = lstrip z := by
  induction z with
  | nil => rfl
  | cons c z ih =>
    cases hsp : isPySpace c with
    | false =>
      unfold lstrip
      rw [List.dropWhile_cons, if_neg (by simp [hsp])]
      exact h
    | true =>
      have hnw : isWordChar c = false := space_not_word hsp
      rw [removeStop_cons_nonword z hnw] at h
      have h2 : removeStop z = z := by
        exact (List.cons.injEq _ _ _ _).mp h |>.2
      unfold lstrip
      rw [List.dropWhile_cons, if_pos (by simp [hsp])]
      exact ih h2

theorem rstrip_decomp (z : List Char) :
    ∃ ss, z = rstrip z ++ ss ∧ ∀ c ∈ ss, isPySpace c = true := by
  refine ⟨(z.reverse.takeWhile isPySpace).reverse, ?_, ?_⟩
  · unfold rstrip
    conv_lhs => rw [← List.reverse_reverse z]
    conv_lhs => rw [← List.takeWhile_append_dropWhile (p := isPySpace) (l := z.reverse)]
    rw [List.reverse_append]
  · intro c hc
    rw [List.mem_reverse] at hc
    exact List.mem_takeWhile_imp hc

theorem removeStop_rstrip {z : List Char} (h : removeStop z = z) :
    removeStop (rstrip z) = rstrip z := by
  obtain ⟨ss, hz, hss⟩ := rstrip_decomp z
  have hnw : ∀ c ∈ ss, isWordChar c = false :=
    fun c hc => space_not_word (hss c hc)
  have key := removeStop_append_nonword hnw (rstrip z)
  rw [← hz, h] at key
  conv_lhs at key => rw [hz]
  exact List.append_cancel_right key.symm

theorem dropWhile_idem (p : Char → Bool) (l : List Char) :
    List.dropWhile p (List.dropWhile p l) = List.dropWhile p l := by
  induction l with
  | nil => rfl
  | cons c l ih =>
    cases hp : p c with
    | true => rw [List.dropWhile_cons, if_pos (by simp [hp]), ih]
    | false =>
      rw [List.dropWhile_cons, if_neg (by simp [hp]), List.dropWhile_cons,
        if_neg (by simp [hp])]

theorem lstrip_head {z : List Char} {c : Char} {t : List Char}
    (h : lstrip z = c :: t) : isPySpace c = false := by
  induction z with
  | nil => simp [lstrip] at h
  | cons d z ih =>
    unfold lstrip at h
    cases hd : isPySpace d with
    | true =>
      rw [List.dropWhile_cons, if_pos (by simp [hd])] at h
      exact ih h
    | false =>
      rw [List.dropWhile_cons, if_neg (by simp [hd])] at h
      obtain ⟨h1, _⟩ := (List.cons.injEq _ _ _ _).mp h
      subst h1
      exact hd

theorem stripChars_idem (z : List Char) :
    stripChars (stripChars z) = stripChars z := by
  unfold stripChars
  have hyl : lstrip (lstrip z) = lstrip z := dropWhile_idem isPySpace z
  have hls : lstrip (rstrip (lstrip z)) = rstrip (lstrip z) := by
    cases hr : rstrip (lstrip z) with
    | nil => rfl
    | cons c t =>
      obtain ⟨ss, hz, _⟩ := rstrip_decomp (lstrip z)
      rw [hr] at hz
      have : lstrip z = c :: (t ++ ss) := by rw [hz]; simp
      have hc : isPySpace c = false := lstrip_head this
      unfold lstrip
      rw [List.dropWhile_cons, if_neg (by simp [hc])]
  rw [hls]
  unfold rstrip
  rw [List.reverse_reverse, dropWhile_idem]

theorem wordRuns_cons_nonword {c : Char} (cs : List Char)
    (h : isWordChar c = false) :
    wordRuns (c :: cs) = wordRuns cs := by
  unfold wordRuns
  rw [toksBy_cons_neg _ h, List.filterMap_cons]
  rfl

theorem wordRuns_lstrip (z : List Char) :
    wordRuns (lstrip z) = wordRuns z := by
  induction z with
  | nil => rfl
  | cons c z ih =>
    cases hsp : isPySpace c with
    | false =>
      unfold lstrip
      rw [List.dropWhile_cons, if_neg (by simp [hsp])]
    | true =>
      unfold lstrip
      rw [List.dropWhile_cons, if_pos (by simp [hsp]),
        wordRuns_cons_nonword z (space_not_word hsp)]
      exact ih

theorem wordRuns_append_nonword {ss : List Char}
    (hss : ∀ c ∈ ss, isWordChar c = false) (xs : List Char) :
    wordRuns (xs ++ ss) = wordRuns xs := by
  unfold wordRuns
  rw [toksBy_append_nonword hss, List.filterMap_append,
    filterMap_wordOf_map_other, List.append_nil]

theorem wordRuns_rstrip (z : List Char) :
    wordRuns (rstrip z) = wordRuns z := by
  obtain ⟨ss, hz, hss⟩ := rstrip_decomp z
  conv_rhs => rw [hz]
  rw [wordRuns_append_nonword (fun c hc => space_not_word (hss c hc))]

theorem wordRuns_removeStop (cs : List Char) :
    wordRuns (removeStop cs) = (wordRuns cs).filter (fun w => !isStop w) := by
  have g := toksBy_good isWordChar cs
  have g2 := filter_good keepTok g (fun c => rfl)
  show (toksBy isWordChar (untoks (List.filter keepTok (toksBy isWordChar cs)))).filterMap wordOf = _
  rw [toksBy_untoks g2, filterMap_wordOf_filter_keepTok]
  rfl

/-! ## Claim theorems -/

/-- C7: `PurposeProcessor.clean` is idempotent.  Proved for every input
string (in particular for boilerplate-free inputs, which is all the claim
requires): substituting away whole-word stop words cannot create a new
whole-word stop word, and stripping an already-stripped string is the
identity, so `clean (clean x) = clean x`. -/
theorem c7_clean_idempotent (x : String) : clean (clean x) = clean x := by
  have key : ∀ d : List Char,
      stripChars (removeStop (stripChars (removeStop d))) =
        stripChars (removeStop d) := by
    intro d
    have hz : removeStop (removeStop d) = removeStop d := removeStop_idem d
    have h1 : removeStop (lstrip (removeStop d)) = lstrip (removeStop d) :=
      removeStop_lstrip hz
    have h2 : removeStop (stripChars (removeStop d)) = stripChars (removeStop d) :=
      removeStop_rstrip h1
    rw [h2, stripChars_idem]
  show String.mk (stripChars (removeStop (stripChars (removeStop x.data)))) =
    String.mk (stripChars (removeStop x.data))
  rw [key]

/-- Executable check that a list of words is sorted by non-increasing
length, i.e. longest-first as `sorted(key=len, reverse=True)` returns. -/
def lenSortedDesc : List String → Bool
  | [] => true
  | [_] => true
  | a :: b :: t => decide (b.length ≤ a.length) && lenSortedDesc (b :: t)

/-- C8: `clean` removes exactly the whole-word occurrences of the stop
words: the word runs of `clean x` are precisely the word runs of `x` that
are not stop words, in order (so a stop word inside a longer non-stop word
survives); the alternation is built from `stopWordsSorted`, which is the
stop-word list sorted by non-increasing length (longest first) and a
permutation of it; the spec's example cleans to `"handel"`; and the
non-stop word `"driver"`, which contains the stop words `"drive"` and
`"er"` as proper substrings, survives intact. -/
theorem c8_whole_word_removal :
    (∀ x : String,
      wordRuns (clean x).data = (wordRuns x.data).filter (fun w => !isStop w))
    ∧ lenSortedDesc stopWordsSorted = true
    ∧ List.Perm stopWordsSorted purposeStopWords
    ∧ clean "Selskabets formål er handel" = "handel"
    ∧ clean "driver" = "driver" := by
  refine ⟨?_, by decide, by decide, rfl, rfl⟩
  intro x
  show wordRuns (stripChars (removeStop x.data)) = _
  show wordRuns (rstrip (lstrip (removeStop x.data))) = _
  rw [wordRuns_rstrip, wordRuns_lstrip, wordRuns_removeStop]

/-- C3 (code bug): `clean` applies only the stop-word pattern; the
boilerplate `ignore_pattern` (which alone contains the `\.$` trailing-dot
alternative) is compiled in `__init__` but never used, so the trailing
full stop of a purpose text survives `clean` although the claim (and the
pattern's own construction) says it is stripped. -/
theorem c3_trailing_dot_survives :
    clean "Selskabets formål er at drive handel." = "handel." := rfl

/-- C4 (counterexample): on a record whose metadata lacks the date field,
`stiftelsesaar` raises `KeyError` instead of returning the `nan` sentinel:
the `self.stiftelsesdato` access stands outside the `try` block. -/
theorem c4_counterexample :
    stiftelsesaar (Json.obj [("virksomhedMetadata", Json.obj [])]) =
      Except.error (PyErr.keyError "stiftelsesDato") ∧
    stiftelsesaar (Json.obj [("virksomhedMetadata", Json.obj [])]) ≠
      Except.ok PyObj.nan := by
  refine ⟨rfl, ?_⟩
  intro h
  rw [show stiftelsesaar (Json.obj [("virksomhedMetadata", Json.obj [])]) =
      Except.error (PyErr.keyError "stiftelsesDato") from rfl] at h
  exact Except.noConfusion h

/-- C4 (amended): `stiftelsesaar` of a record whose date is
`"1998-07-14T00:00:00"` is the integer 1998; of a record whose date field
is null it is the `nan` sentinel without an exception; but a record whose
date field is missing raises `KeyError` (the date access is outside the
`try`). -/
theorem c4_stiftelsesaar_policy :
    stiftelsesaar (Json.obj [("virksomhedMetadata",
        Json.obj [("stiftelsesDato", Json.str "1998-07-14T00:00:00")])]) =
      Except.ok (PyObj.pint 1998) ∧
    stiftelsesaar (Json.obj [("virksomhedMetadata",
        Json.obj [("stiftelsesDato", Json.null)])]) = Except.ok PyObj.nan ∧
    stiftelsesaar (Json.obj [("virksomhedMetadata", Json.obj [])]) =
      Except.error (PyErr.keyError "stiftelsesDato") :=
  ⟨rfl, rfl, rfl⟩

/-- C1 (counterexample): a record holding only a valid company identifier
makes `features` raise `KeyError`: the `antal_penheder` accessor reads
`data['virksomhedMetadata']` with no guard, so an accessor of the
catalogue raises on missing optional data. -/
theorem c1_counterexample :
    features (Json.obj [("cvrNummer", Json.int 33628234)]) =
      Except.error (PyErr.keyError "virksomhedMetadata") := rfl

/-- C1 (amended): for every record in which the directly subscripted
fields resolve — `cvrNummer`, `virksomhedMetadata` with `antalPenheder`,
`sammensatStatus` and `stiftelsesDato`, `brancheAnsvarskode` and
`reklamebeskyttet` — and with every other substructure arbitrarily
missing, `features` returns a feature vector whose key list is exactly
the fixed `featureNames` in fixed order, and no guarded accessor
raises. -/
theorem c1_features_fixed_keys (data meta c ap ba rb ss sd : Json)
    (hc : pyGet data "cvrNummer" = .ok c)
    (hm : pyGet data "virksomhedMetadata" = .ok meta)
    (ha : pyGet meta "antalPenheder" = .ok ap)
    (hb : pyGet data "brancheAnsvarskode" = .ok ba)
    (hr : pyGet data "reklamebeskyttet" = .ok rb)
    (hs : pyGet meta "sammensatStatus" = .ok ss)
    (hd : pyGet meta "stiftelsesDato" = .ok sd) :
    ∃ fv, features data = Except.ok fv ∧ fv.map Prod.fst = featureNames := by
  have hfe : features data = Except.ok
      [("cvr_nummer", PyObj.ofJson c),
       ("antal_penheder", PyObj.ofJson ap),
       ("branche_ansvarskode", PyObj.pstr (pyStr ba)),
       ("nyeste_antal_ansatte", nyeste_antal_ansatte data),
       ("nyeste_virksomhedsform", nyeste_virksomhedsform data),
       ("reklamebeskyttet", PyObj.ofJson rb),
       ("sammensat_status", PyObj.ofJson ss),
       ("nyeste_hovedbranche_branchekode",
        PyObj.ofJson (nyeste_hovedbranche_branchekode data)),
       ("nyeste_hovedbranche_branchetekst",
        PyObj.ofJson (nyeste_hovedbranche_branchetekst data)),
       ("nyeste_statuskode", PyObj.pstr (nyeste_statuskode data)),
       ("stiftelsesaar", tryYear sd)] := by
    simp only [features, cvr_nummer, antal_penheder, branche_ansvarskode,
      reklamebeskyttet, sammensat_status, stiftelsesaar, stiftelsesdato,
      bind, Except.bind, pure, Except.pure, hc, hm, ha, hb, hr, hs, hd]
  exact ⟨_, hfe, rfl⟩

/-- C1 (witness): a concrete record with the required direct fields and
everything optional missing yields a feature vector with the fixed key
order. -/
theorem c1_witness :
    ∃ fv, features (Json.obj
      [("cvrNummer", Json.int 33628234),
       ("virksomhedMetadata", Json.obj
         [("antalPenheder", Json.int 2),
          ("sammensatStatus", Json.str "NORMAL"),
          ("stiftelsesDato", Json.str "1998-07-14T00:00:00")]),
       ("brancheAnsvarskode", Json.null),
       ("reklamebeskyttet", Json.bool true)]) = Except.ok fv ∧
      fv.map Prod.fst = featureNames :=
  c1_features_fixed_keys _
    (Json.obj [("antalPenheder", Json.int 2),
      ("sammensatStatus", Json.str "NORMAL"),
      ("stiftelsesDato", Json.str "1998-07-14T00:00:00")])
    (Json.int 33628234) (Json.int 2) Json.null (Json.bool true)
    (Json.str "NORMAL") (Json.str "1998-07-14T00:00:00")
    rfl rfl rfl rfl rfl rfl rfl

/-- C6 (counterexample): `count_fields` does count the envelope `_id`
field when its value is an integer: the `field == '._id'` test comes
after the integral/textual branches, so `{'_id': 5}` yields
`{'_id': 1}`, not the empty census the claim asserts. -/
theorem c6_counterexample :
    ¬ countFields (Json.obj [("_id", Json.int 5)]) = Except.ok [] := by
  intro h
  rw [show countFields (Json.obj [("_id", Json.int 5)]) =
      Except.ok ["_id"] from rfl] at h
  simp at h

/-- C6 (amended): a null leaf emits nothing at any path (and a null field
leaves the census of the remaining fields unchanged); the top-level `_id`
field emits nothing only when its value is of an otherwise-unhandled leaf
type (the `float`/ObjectId case); an integral `_id` is counted like any
other field. -/
theorem c6_null_and_id_policy :
    (∀ field : String, processField field Json.null = Except.ok [])
    ∧ (∀ (field k : String) (kvs : List (String × Json)),
        processFieldObj field ((k, Json.null) :: kvs) = processFieldObj field kvs)
    ∧ countFields (Json.obj [("_id", Json.float 0)]) = Except.ok []
    ∧ countFields (Json.obj [("_id", Json.int 5)]) = Except.ok ["_id"] := by
  refine ⟨fun _ => rfl, ?_, rfl, rfl⟩
  intro field k kvs
  simp only [processFieldObj, processField, bind, Except.bind, pure, Except.pure]
  cases hrest : processFieldObj field kvs with
  | ok l => simp
  | error e => simp

/-- C9: the census of `{'cvrNummer': 33628234}` is exactly the counter
`{'cvrNummer': 1}` (the emitted path multiset is the single path
`cvrNummer`), and the total of all per-path counts over a stream of
records is monotonically non-decreasing as records are folded in. -/
theorem c9_count_fields_census :
    countFields (Json.obj [("cvrNummer", Json.int 33628234)]) =
      Except.ok ["cvrNummer"]
    ∧ ∀ (records : List Json) (n : Nat),
        censusTotal (records.take n) ≤ censusTotal (records.take (n + 1)) := by
  refine ⟨rfl, ?_⟩
  intro records n
  unfold censusTotal
  rw [List.take_succ, List.map_append, List.sum_append]
  exact Nat.le_add_right _ _

/-- C2 (code bug): at end of input `readline` returns `""`, `json.loads`
rejects it (hypothesis `hdec`), and `__next__` re-raises the decode
failure as `ValueError` — the method has no `StopIteration` path, so
iteration never terminates cleanly. -/
theorem c2_eof_raises (dec : String → Option Json) (n : Nat)
    (hdec : dec "" = none) :
    cvrNext dec ⟨[], n⟩ = Except.error (PyErr.valueError
      ("No JSON object could be decoded in line " ++ toString (n + 1) ++ ": ")) := by
  simp only [cvrNext, readline, hdec]
  rw [String.append_empty]

/-- C2 (witness): with a concrete decoder rejecting the empty line, the
very first `next` on an exhausted stream raises `ValueError` for line 1
instead of signalling end of stream. -/
theorem c2_witness :
    cvrNext toyDec ⟨[], 0⟩ = Except.error (PyErr.valueError
      "No JSON object could be decoded in line 1: ") :=
  c2_eof_raises toyDec 0 rfl

/-- C5: on a 3-line stream whose second line fails to decode, the reader
yields exactly the first record, then raises `ValueError` carrying the
1-based line number 2 and the raw offending line, and iteration halts
with no record from line 3. -/
theorem c5_malformed_line (dec : String → Option Json) (l1 l2 l3 : String)
    (j1 : Json) (h1 : dec l1 = some j1) (h2 : dec l2 = none) :
    readRecords dec 3 ⟨[l1, l2, l3], 0⟩ =
      ([j1], some (PyErr.valueError
        ("No JSON object could be decoded in line " ++ toString 2 ++ ": " ++ l2))) := by
  simp only [readRecords, cvrNext, readline, h1, h2]

/-- C5 (witness): concrete stream `["{}", "oops", "{}"]` with the toy
decoder: one record is yielded, then the error names line 2 and the text
`oops`, and the third line is never yielded. -/
theorem c5_witness :
    readRecords toyDec 3 ⟨["{}", "oops", "{}"], 0⟩ =
      ([Json.obj []], some (PyErr.valueError
        "No JSON object could be decoded in line 2: oops")) :=
  c5_malformed_line toyDec "{}" "oops" "{}" (Json.obj []) rfl rfl

/-- Scan guard of the `formaal` loop: the attribute has a `'type'` key and
it is not the `FORMÅL` tag, so the loop skips it. -/
def preNotFormaal (b : Json) : Bool :=
  match pyGet b "type" with
  | .ok t => !jsonEqStr t "FORMÅL"
  | .error _ => false

theorem formaalLoop_skip {pre : List Json}
    (h : ∀ b ∈ pre, preNotFormaal b = true) (rest : List Json) :
    formaalLoop (pre ++ rest) = formaalLoop rest := by
  induction pre with
  | nil => rfl
  | cons b pre ih =>
    have hb := h b (List.mem_cons_self _ _)
    unfold preNotFormaal at hb
    cases ht : pyGet b "type" with
    | error e => rw [ht] at hb; simp at hb
    | ok t =>
      rw [ht] at hb
      simp only [Bool.not_eq_true'] at hb
      rw [List.cons_append]
      simp only [formaalLoop, ht, bind, Except.bind, hb, Bool.false_eq_true,
        if_false]
      exact ih (fun b' hb' => h b' (List.mem_cons_of_mem _ hb'))

/-- C10: `formaal` collects exactly the `'vaerdi'` entries of the first
attribute tagged `FORMÅL` — the attributes after it (including any later
`FORMÅL`-tagged one, which may occur in `post`) are ignored because of the
`break` — and returns the empty list when no attribute carries the tag. -/
theorem c10_formaal_first_tag :
    (∀ (data : Json) (pre : List Json) (a : Json) (post : List Json)
        (ta : Json) (vsl ws : List Json),
      pyGet data "attributter" = .ok (Json.arr (pre ++ a :: post)) →
      (∀ b ∈ pre, preNotFormaal b = true) →
      pyGet a "type" = .ok ta →
      jsonEqStr ta "FORMÅL" = true →
      pyGet a "vaerdier" = .ok (Json.arr vsl) →
      vsl.mapM (fun v => pyGet v "vaerdi") = .ok ws →
      formaal data = .ok ws)
    ∧ (∀ (data : Json) (attrs : List Json),
      pyGet data "attributter" = .ok (Json.arr attrs) →
      (∀ b ∈ attrs, preNotFormaal b = true) →
      formaal data = .ok []) := by
  constructor
  · intro data pre a post ta vsl ws hattr hpre hta htag hvs hws
    simp only [formaal, hattr, bind, Except.bind, pyIterate]
    rw [formaalLoop_skip hpre]
    simp only [formaalLoop, hta, bind, Except.bind, htag, if_true, hvs,
      pyIterate, hws]
  · intro data attrs hattr hall
    simp only [formaal, hattr, bind, Except.bind, pyIterate]
    have := formaalLoop_skip hall ([] : List Json)
    rw [List.append_nil] at this
    rw [this]
    rfl

/-- C10 (witness): a record with one non-`FORMÅL` attribute, a first
`FORMÅL` attribute with value `handel`, and a second `FORMÅL` attribute
whose values are ignored, yields exactly `["handel"]`; a record with no
`FORMÅL` attribute yields `[]`. -/
theorem c10_witness :
    formaal (Json.obj [("attributter", Json.arr
      [Json.obj [("type", Json.str "NAVN"), ("vaerdier", Json.arr [])],
       Json.obj [("type", Json.str "FORMÅL"),
         ("vaerdier", Json.arr [Json.obj [("vaerdi", Json.str "handel")]])],
       Json.obj [("type", Json.str "FORMÅL"),
         ("vaerdier", Json.arr [Json.obj [("vaerdi", Json.str "ignored")]])]])])
      = Except.ok [Json.str "handel"]
    ∧ formaal (Json.obj [("attributter", Json.arr
        [Json.obj [("type", Json.str "NAVN")]])]) = Except.ok [] := by
  constructor
  · exact c10_formaal_first_tag.1 _
      [Json.obj [("type", Json.str "NAVN"), ("vaerdier", Json.arr [])]]
      (Json.obj [("type", Json.str "FORMÅL"),
        ("vaerdier", Json.arr [Json.obj [("vaerdi", Json.str "handel")]])])
      [Json.obj [("type", Json.str "FORMÅL"),
        ("vaerdier", Json.arr [Json.obj [("vaerdi", Json.str "ignored")]])]]
      (Json.str "FORMÅL")
      [Json.obj [("vaerdi", Json.str "handel")]]
      [Json.str "handel"]
      rfl (by decide) rfl rfl rfl rfl
  · exact c10_formaal_first_tag.2 _
      [Json.obj [("type", Json.str "NAVN")]] rfl (by decide)
